import Mathlib

/-!
# The `spmm_mex` binding of `ae-multigrid` (crisp-boundaries)

Source: `toolboxes/ae-multigrid-master/ispc/spmm_mex.cpp`, a MEX gateway of
twenty lines.  It unpacks nine host arrays, converts four of them to `int`
and calls the external routine `ispc::spmm` on the result.

The gateway is embedded twice: `mexFunction` holds the host arrays as values,
`mexFunctionMem` holds them by address, so that one array passed in two places
is one array; `mexFunctionMem_view` relates the two.

The element type `double` is a type parameter `α`; the theorems that need no
law of arithmetic assume none, so they hold for IEEE doubles with rounding as
well as for exact numbers.  C `int` values are `Int`.
-/

namespace SpmmMex

/-! ## The host side: `mex.h` -/

/-- A host array (`mxArray`): the class of its elements and its data buffer.
Only the two classes this binding is meant to receive are distinguished. -/
inductive MxArray (α : Type) where
  | real (xs : List α)
  | int32 (xs : List Int)
deriving DecidableEq

/-- What the C++ language and the machine leave to the platform:
`static_cast<int>` on a `double`, and what a buffer of one element class
holds when it is read or written through a pointer of the other class. -/
structure Platform (α : Type) where
  /-- Conversion `static_cast<int>(d)`. -/
  toInt : α → Int
  /-- An `int32` buffer read through a `double*`. -/
  punToDouble : List Int → List α
  /-- A `double` buffer read through an `int*`. -/
  punToInt : List α → List Int

/-- The state the host passes to a MEX gateway: `nlhs`, `plhs`, `nrhs`, `prhs`.
The lists hold the arrays that really are behind the two pointers; `nlhs` and
`nrhs` are the counts the host announces.  The arrays are held as values, one
per argument; `HostMem` below holds them by address, for calls that pass one
array in two places. -/
structure Host (α : Type) where
  nlhs : Int
  plhs : List (MxArray α)
  nrhs : Int
  prhs : List (MxArray α)
deriving DecidableEq

/-- The buffer `static_cast<double*>(mxGetData(a))` points to. -/
def doublePtr {α : Type} (P : Platform α) : MxArray α → List α
  | .real xs => xs
  | .int32 xs => P.punToDouble xs

/-- The buffer `static_cast<int*>(mxGetData(a))` points to. -/
def intPtr {α : Type} (P : Platform α) : MxArray α → List Int
  | .real xs => P.punToInt xs
  | .int32 xs => xs

/-- The buffer `mxGetPr(a)` points to: the data of the array, as doubles. -/
def mxGetPr {α : Type} (P : Platform α) (a : MxArray α) : List α :=
  doublePtr P a

/-- The array `a` after its buffer was overwritten, through a `double*`, with
the contents `ys`. -/
def storeDoubles {α : Type} (P : Platform α) (a : MxArray α) (ys : List α) : MxArray α :=
  match a with
  | .real _ => .real ys
  | .int32 _ => .int32 (P.punToInt ys)

/-- The external routine `ispc::spmm`, seen from the call site: it receives
`(sp_vals, sp_cind, sp_roff, mx_vals, sx, sy, sz, result, nt)` and its value
here is the contents of the buffer behind `result` when it returns. -/
abbrev Kernel (α : Type) : Type :=
  List α → List Int → List Int → List α → Int → Int → Int → List α → Int → List α

/-! ## The gateway -/

/-- The expression `static_cast<int>((mxGetPr(prhs[i]))[0])`: the first
element of the `i`-th argument, converted to `int`.  Both lookups can fail
(`none`: the C++ program reads outside an array). -/
def intArg {α : Type} (P : Platform α) (prhs : List (MxArray α)) (i : Nat) : Option Int := do
  let a ← prhs[i]?
  let d ← (mxGetPr P a)[0]?
  pure (P.toInt d)

/-- The gateway `mexFunction(nlhs, plhs, nrhs, prhs)`, parameterised by the
external routine it calls.  The lookups `prhs[i]` and `(mxGetPr(..))[0]` can
fail (`none`); nothing else can.  The value is the host state on return, in
which the one array written, `prhs[7]`, is replaced; `mexFunctionMem` below is
the same function on host memory, where that array may be another argument
too. -/
def mexFunction {α : Type} (P : Platform α) (spmm : Kernel α) (h : Host α) :
    Option (Host α) := do
  /- retrieve input -/
  let sp_vals := doublePtr P (← h.prhs[0]?)
  let sp_cind := intPtr P (← h.prhs[1]?)
  let sp_roff := intPtr P (← h.prhs[2]?)
  let mx_vals := doublePtr P (← h.prhs[3]?)
  let sx ← intArg P h.prhs 4
  let sy ← intArg P h.prhs 5
  let sz ← intArg P h.prhs 6
  /- retrieve output -/
  let out ← h.prhs[7]?
  let result := doublePtr P out
  let nt ← intArg P h.prhs 8
  /- multiply -/
  let result' := spmm sp_vals sp_cind sp_roff mx_vals sx sy sz result nt
  pure { h with prhs := h.prhs.set 7 (storeDoubles P out result') }

/-- The contents of the result buffer (`prhs[7]`, read as doubles) in a host
state; empty when there is no such argument. -/
def resultOf {α : Type} (P : Platform α) (h : Host α) : List α :=
  match h.prhs[7]? with
  | some a => doublePtr P a
  | none => []

/-! ## The multiply routine

`ispc::spmm` is declared in `spmm.h` and defined in an ISPC source; neither is
part of the sources at hand.  The routine below is the multiply operation as
the specification words it. -/

/-- Modelled from the spec: the element order of a dense matrix in its flat
buffer, part of the missing kernel `ispc::spmm`.  The specification leaves the
choice open, so every statement below is made for both orders. -/
inductive Layout where
  | rowMajor
  | colMajor
deriving DecidableEq

/-- Modelled from the spec: the position of entry `(r, c)` of a `rows × cols`
matrix in its flat buffer, as the missing kernel `ispc::spmm` addresses it. -/
def Layout.index : Layout → Nat → Nat → Nat → Nat → Nat
  | .rowMajor, _, cols, r, c => r * cols + c
  | .colMajor, rows, _, r, c => c * rows + r

/-- Modelled from the spec: a read of element `i` of a buffer of doubles by the
missing kernel `ispc::spmm`; zero outside the buffer, where the specification
gives a read no meaning. -/
def readAt {α : Type} [Zero α] (xs : List α) (i : Nat) : α :=
  xs.getD i 0

/-- Modelled from the spec: a read of element `i` of a buffer of indices by the
missing kernel `ispc::spmm`, as a position; zero outside the buffer and for a
negative entry. -/
def indexAt (xs : List Int) (i : Nat) : Nat :=
  (xs.getD i 0).toNat

/-- Modelled from the spec: one output entry of the missing kernel
`ispc::spmm`, the products `sp_vals[i] * dense[sp_cind[i], c]` over the
stored entries `i` of row `r`, that is `sp_roff[r] ≤ i < sp_roff[r+1]`, added
up from zero in storage order. -/
def dotRow {α : Type} [Zero α] [Add α] [Mul α] (layout : Layout)
    (sp_vals : List α) (sp_cind sp_roff : List Int) (mx_vals : List α)
    (sy sz : Nat) (r c : Nat) : α :=
  (List.range' (indexAt sp_roff r) (indexAt sp_roff (r + 1) - indexAt sp_roff r)).foldl
    (fun acc i => acc + readAt sp_vals i * readAt mx_vals (layout.index sy sz (indexAt sp_cind i) c))
    0

/-- Modelled from the spec: output row `r` of the missing kernel `ispc::spmm`;
every entry `(r, c)`, `c < sz`, of the result is overwritten with its sum. -/
def spmmRow {α : Type} [Zero α] [Add α] [Mul α] (layout : Layout)
    (sp_vals : List α) (sp_cind sp_roff : List Int) (mx_vals : List α)
    (sx sy sz : Nat) (r : Nat) (result : List α) : List α :=
  (List.range sz).foldl
    (fun acc c => acc.set (layout.index sx sz r c)
      (dotRow layout sp_vals sp_cind sp_roff mx_vals sy sz r c))
    result

/-- Modelled from the spec: the work of one worker of the missing kernel
`ispc::spmm`, the output rows `lo ≤ r < hi`, in order. -/
def spmmRows {α : Type} [Zero α] [Add α] [Mul α] (layout : Layout)
    (sp_vals : List α) (sp_cind sp_roff : List Int) (mx_vals : List α)
    (sx sy sz : Nat) (lo hi : Nat) (result : List α) : List α :=
  (List.range' lo (hi - lo)).foldl
    (fun acc r => spmmRow layout sp_vals sp_cind sp_roff mx_vals sx sy sz r acc)
    result

/-- Modelled from the spec: the row split of the missing kernel `ispc::spmm`.
The specification asks for disjoint contiguous row ranges, one per worker; here
worker `t` of `nt` owns the rows from `rowStart sx nt t` up to
`rowStart sx nt (t + 1)`. -/
def rowStart (sx nt t : Nat) : Nat :=
  t * sx / nt

/-- Modelled from the spec: the kernel `ispc::spmm` (declared in `spmm.h`),
whose definition is missing.  It is the multiply of section 4.1 with the
row-parallel schedule of section 5: `nt` workers, each owning a contiguous
range of output rows and writing only there.  As the workers share nothing
they write, they are run one after the other.  The value is the result buffer
on return.  Validation is not part of the kernel: the specification places it
at the call boundary, which is `mexFunction`. -/
def spmm {α : Type} [Zero α] [Add α] [Mul α] (layout : Layout) : Kernel α :=
  fun sp_vals sp_cind sp_roff mx_vals sx sy sz result nt =>
    (List.range nt.toNat).foldl
      (fun acc t =>
        spmmRows layout sp_vals sp_cind sp_roff mx_vals sx.toNat sy.toNat sz.toNat
          (rowStart sx.toNat nt.toNat t) (rowStart sx.toNat nt.toNat (t + 1)) acc)
      result

/-! ## The data model and the guarantee, in the specification's words -/

/-- The stored entries `(r, k, v)` of a sparse matrix in compressed-row form
with `numRows` rows: the entries of row `r` occupy the positions
`rowOffsets[r] .. rowOffsets[r+1]` of `values` and `columnIndices`. -/
def csrEntries {α : Type} [Zero α] (values : List α) (columnIndices rowOffsets : List Int)
    (numRows : Nat) : List (Nat × Nat × α) :=
  (List.range numRows).flatMap (fun r =>
    (List.range' (indexAt rowOffsets r)
        (indexAt rowOffsets (r + 1) - indexAt rowOffsets r)).map
      (fun i => (r, indexAt columnIndices i, readAt values i)))

/-- The guaranteed value of `result[r, c]`: the sum over the stored entries
`(r, k, v)` of the sparse matrix of `v * dense[k, c]`, added up from zero in
storage order. -/
def entrySum {α : Type} [Zero α] [Add α] [Mul α] (layout : Layout)
    (values : List α) (columnIndices rowOffsets : List Int) (dense : List α)
    (numRows numCols numOutCols : Nat) (r c : Nat) : α :=
  ((csrEntries values columnIndices rowOffsets numRows).filter (fun e => decide (e.1 = r))).foldl
    (fun acc e => acc + e.2.2 * readAt dense (layout.index numCols numOutCols e.2.1 c))
    0

/-- The shape and length invariants of the data model (sections 3 and 4.1 of
the specification) for a sparse matrix, a dense matrix and a result buffer. -/
def WellFormed {α : Type} (values : List α) (columnIndices rowOffsets : List Int)
    (dense result : List α) (numRows numCols numOutCols : Nat) : Prop :=
  rowOffsets.length = numRows + 1 ∧
  (∀ r < numRows, rowOffsets.getD r 0 ≤ rowOffsets.getD (r + 1) 0) ∧
  rowOffsets[0]? = some 0 ∧
  rowOffsets[numRows]? = some (values.length : Int) ∧
  columnIndices.length = values.length ∧
  (∀ k ∈ columnIndices, 0 ≤ k ∧ k < (numCols : Int)) ∧
  dense.length = numCols * numOutCols ∧
  result.length = numRows * numOutCols

instance instDecidableWellFormed {α : Type} (values : List α)
    (columnIndices rowOffsets : List Int) (dense result : List α)
    (numRows numCols numOutCols : Nat) :
    Decidable (WellFormed values columnIndices rowOffsets dense result
      numRows numCols numOutCols) := by
  unfold WellFormed
  infer_instance

/-- The host state `h` presents the call
`multiply(values, columnIndices, rowOffsets, dense, sx, sy, sz, result, nt)`:
the arrays have the classes the gateway reads them at and the four scalar
arguments convert to `sx`, `sy`, `sz` and `nt`. -/
def IsCall {α : Type} (P : Platform α) (h : Host α) (values : List α)
    (columnIndices rowOffsets : List Int) (dense : List α) (sx sy sz : Int)
    (result : List α) (nt : Int) : Prop :=
  h.prhs[0]? = some (.real values) ∧
  h.prhs[1]? = some (.int32 columnIndices) ∧
  h.prhs[2]? = some (.int32 rowOffsets) ∧
  h.prhs[3]? = some (.real dense) ∧
  intArg P h.prhs 4 = some sx ∧
  intArg P h.prhs 5 = some sy ∧
  intArg P h.prhs 6 = some sz ∧
  h.prhs[7]? = some (.real result) ∧
  intArg P h.prhs 8 = some nt

/-! ## A concrete platform -/

/-- The conversion `static_cast<int>(d)` of a finite double, given as the
rational it denotes: the fractional part is discarded.  Outside the range of
`int` C++ leaves the conversion undefined; x86-64 then yields `INT_MIN`. -/
def castInt (d : ℚ) : Int :=
  let t := d.num.tdiv d.den
  if -2147483648 ≤ t ∧ t ≤ 2147483647 then t else -2147483648

/-- Exact doubles on x86-64.  No example reads a buffer through a pointer of
the other class, so the two puns are left empty. -/
def refPlatform : Platform ℚ where
  toInt := castInt
  punToDouble := fun _ => []
  punToInt := fun _ => []

/-- A host state with the argument list `prhs`, no output array, and `nrhs`
as the host sets it. -/
def hostOf (prhs : List (MxArray ℚ)) : Host ℚ where
  nlhs := 0
  plhs := []
  nrhs := prhs.length
  prhs := prhs

/-- Nine arguments of which the fifth, the one `sx` is read from, is an empty
array. -/
def emptyScalarCall : Host ℚ :=
  hostOf [.real [1, 2], .int32 [0, 1], .int32 [0, 1, 2], .real [3, 4],
    .real [], .real [2], .real [1], .real [7, 7], .real [1]]

/-- The host state of a well-typed call with a single element in each scalar
argument, no output array and nothing after the ninth argument. -/
def call (values : List ℚ) (columnIndices rowOffsets : List Int) (dense : List ℚ)
    (sx sy sz : ℚ) (result : List ℚ) (nt : ℚ) : Host ℚ where
  nlhs := 0
  plhs := []
  nrhs := 9
  prhs := [.real values, .int32 columnIndices, .int32 rowOffsets, .real dense,
    .real [sx], .real [sy], .real [sz], .real result, .real [nt]]

/-! ## The gateway on host memory

The arguments of a gateway are pointers, and the host may pass one array in
two places.  `Host` above holds the arrays as values, which describes a call
in which the result array `prhs[7]` is passed once only (`mexFunctionMem_view`
below); `HostMem` keeps the pointers. -/

/-- The state the host passes to a MEX gateway, with the arguments as the
pointers they are: `mem` holds the arrays the host owns, an address is a
position in `mem`, and `plhs` and `prhs` hold addresses.  Two arguments that
hold the same address are one array, passed twice. -/
structure HostMem (α : Type) where
  nlhs : Int
  plhs : List Nat
  nrhs : Int
  prhs : List Nat
  mem : List (MxArray α)
deriving DecidableEq

/-- The external routine `ispc::spmm` as the machine sees it: it receives the
five pointers and four `int`s of the call and leaves the host memory in some
state; `none` when it reads through a pointer that points nowhere. -/
abbrev KernelMem (α : Type) : Type :=
  List (MxArray α) → Nat → Nat → Nat → Nat → Int → Int → Int → Nat → Int →
    Option (List (MxArray α))

/-- The expression `static_cast<int>((mxGetPr(prhs[i]))[0])` on host memory. -/
def intArgMem {α : Type} (P : Platform α) (h : HostMem α) (i : Nat) : Option Int := do
  let p ← h.prhs[i]?
  let a ← h.mem[p]?
  let d ← (mxGetPr P a)[0]?
  pure (P.toInt d)

/-- The gateway `mexFunction(nlhs, plhs, nrhs, prhs)` on host memory: the five
pointers `sp_vals`, `sp_cind`, `sp_roff`, `mx_vals` and `result` are handed to
`spmm` as they are found in `prhs`, equal or not, and the memory on return is
the one `spmm` leaves. -/
def mexFunctionMem {α : Type} (P : Platform α) (spmm : KernelMem α) (h : HostMem α) :
    Option (HostMem α) := do
  /- retrieve input -/
  let sp_vals ← h.prhs[0]?
  let sp_cind ← h.prhs[1]?
  let sp_roff ← h.prhs[2]?
  let mx_vals ← h.prhs[3]?
  let sx ← intArgMem P h 4
  let sy ← intArgMem P h 5
  let sz ← intArgMem P h 6
  /- retrieve output -/
  let result ← h.prhs[7]?
  let nt ← intArgMem P h 8
  /- multiply -/
  let mem' ← spmm h.mem sp_vals sp_cind sp_roff mx_vals sx sy sz result nt
  pure { h with mem := mem' }

/-- Modelled from the spec: the side effects of the missing kernel
`ispc::spmm`, "mutates `result` in place; no other observable effects".  The
kernel reads its five buffers and overwrites the one behind `result`, and no
other, with what `kernel` makes of the contents on entry.  When `result` is
also one of the buffers read, the values a real kernel writes depend on the
order of its reads and writes, which the specification does not fix; the
theorems on host memory use where the kernel writes and how much, not which
values. -/
def inPlace {α : Type} (P : Platform α) (kernel : Kernel α) : KernelMem α :=
  fun mem sp_vals sp_cind sp_roff mx_vals sx sy sz result nt => do
    let a0 ← mem[sp_vals]?
    let a1 ← mem[sp_cind]?
    let a2 ← mem[sp_roff]?
    let a3 ← mem[mx_vals]?
    let a7 ← mem[result]?
    pure (mem.set result (storeDoubles P a7
      (kernel (doublePtr P a0) (intPtr P a1) (intPtr P a2) (doublePtr P a3) sx sy sz
        (doublePtr P a7) nt)))

/-- The arrays behind the pointers of a host state: the state as `Host` holds
it.  A pointer that points nowhere is read as an empty array. -/
def HostMem.view {α : Type} (h : HostMem α) : Host α where
  nlhs := h.nlhs
  plhs := h.plhs.map (fun p => h.mem.getD p (.real []))
  nrhs := h.nrhs
  prhs := h.prhs.map (fun p => h.mem.getD p (.real []))

/-- The result array `prhs[7]` is passed once only: no output and no other
argument holds its address. -/
def ResultUnshared {α : Type} (h : HostMem α) : Prop :=
  (∀ q ∈ h.plhs, h.prhs[7]? ≠ some q) ∧
  (∀ i < h.prhs.length, i ≠ 7 → h.prhs[i]? ≠ h.prhs[7]?)

instance instDecidableResultUnshared {α : Type} (h : HostMem α) :
    Decidable (ResultUnshared h) := by
  unfold ResultUnshared
  infer_instance

/-- The host memory of a well-typed call of nine different arrays, with a
single element in each scalar argument. -/
def callMem (values : List ℚ) (columnIndices rowOffsets : List Int) (dense : List ℚ)
    (sx sy sz : ℚ) (result : List ℚ) (nt : ℚ) : HostMem ℚ where
  nlhs := 0
  plhs := []
  nrhs := 9
  prhs := [0, 1, 2, 3, 4, 5, 6, 7, 8]
  mem := [.real values, .int32 columnIndices, .int32 rowOffsets, .real dense,
    .real [sx], .real [sy], .real [sz], .real result, .real [nt]]

/-- A call that passes one array, `[7, 7]`, both as the dense matrix `prhs[3]`
and as the result `prhs[7]`; the sparse matrix is the diagonal of 1 and 2, so
that each cell of the result is computed from that same cell of the dense
matrix alone and the order of the reads and writes of the kernel does not
matter. -/
def sharedCall : HostMem ℚ where
  nlhs := 0
  plhs := []
  nrhs := 9
  prhs := [0, 1, 2, 3, 4, 5, 6, 3, 7]
  mem := [.real [1, 2], .int32 [0, 1], .int32 [0, 1, 2], .real [7, 7],
    .real [2], .real [2], .real [1], .real [1]]

/-- The cells `(r, c)` of the result that the rows `lo ≤ r < hi` write, in the
order `spmmRows` writes them. -/
def cells (lo hi sz : Nat) : List (Nat × Nat) :=
  (List.range' lo (hi - lo)).flatMap (fun r => (List.range sz).map (fun c => (r, c)))

/-- Modelled from the spec: a run of the missing kernel `ispc::spmm` in which the
entries of the result are written one at a time, entry `(r, c)` for each pair
in `order`, in that order.  A parallel run of the workers is such a run: its
writes are those of the cells of all rows, in some order. -/
def spmmInOrder {α : Type} [Zero α] [Add α] [Mul α] (layout : Layout)
    (sp_vals : List α) (sp_cind sp_roff : List Int) (mx_vals : List α)
    (sx sy sz : Nat) (order : List (Nat × Nat)) (result : List α) : List α :=
  order.foldl
    (fun acc p => acc.set (layout.index sx sz p.1 p.2)
      (dotRow layout sp_vals sp_cind sp_roff mx_vals sy sz p.1 p.2))
    result

/-- Truncation toward zero, in the words of the claim about the scalar
arguments: the floor of a non-negative number, the ceiling of a negative one. -/
def truncToZero (d : ℚ) : Int :=
  if 0 ≤ d then ⌊d⌋ else ⌈d⌉

/-! # Lemmas -/

/-! ### Writing a list of cells into a buffer -/

theorem foldl_set_length {α ι : Type} (f : ι → Nat) (g : ι → α) (ps : List ι) (res : List α) :
    (ps.foldl (fun acc p => acc.set (f p) (g p)) res).length = res.length := by
  induction ps generalizing res with
  | nil => rfl
  | cons p ps ih => simp [List.foldl_cons, ih]

theorem foldl_set_untouched {α ι : Type} (f : ι → Nat) (g : ι → α) (ps : List ι) (res : List α)
    (j : Nat) (hj : ∀ p ∈ ps, f p ≠ j) :
    (ps.foldl (fun acc p => acc.set (f p) (g p)) res)[j]? = res[j]? := by
  induction ps generalizing res with
  | nil => rfl
  | cons p ps ih =>
    rw [List.foldl_cons, ih _ (fun q hq => hj q (List.mem_cons_of_mem _ hq))]
    exact List.getElem?_set_ne (hj p (List.mem_cons_self _ _))

theorem foldl_set_written {α ι : Type} (f : ι → Nat) (g : ι → α) (ps : List ι) (res : List α)
    (p : ι) (hp : p ∈ ps) (hinj : ∀ q ∈ ps, f q = f p → g q = g p) (hlt : f p < res.length) :
    (ps.foldl (fun acc q => acc.set (f q) (g q)) res)[f p]? = some (g p) := by
  induction ps using List.reverseRecOn with
  | nil => cases hp
  | append_singleton ps q ih =>
    rw [List.foldl_append, List.foldl_cons, List.foldl_nil]
    by_cases hfq : f q = f p
    · rw [hfq, ← hinj q (by simp) hfq]
      exact List.getElem?_set_self (by rw [foldl_set_length]; exact hlt)
    · rw [List.getElem?_set_ne hfq]
      have hp' : p ∈ ps := by
        rcases List.mem_append.1 hp with h | h
        · exact h
        · have : p = q := by simpa using h
          exact absurd (by rw [this]) hfq
      exact ih hp' (fun q' hq' => hinj q' (List.mem_append_left _ hq'))

theorem foldl_flatMap_map {α β γ δ : Type} (op : β → δ → β) (F : α → γ → δ) (L : α → List γ)
    (l : List α) (b : β) :
    (l.flatMap (fun a => (L a).map (F a))).foldl op b
      = l.foldl (fun acc a => (L a).foldl (fun acc c => op acc (F a c)) acc) b := by
  induction l generalizing b with
  | nil => rfl
  | cons a l ih =>
    rw [List.flatMap_cons, List.foldl_append, List.foldl_cons, ih, List.foldl_map]

/-! ### Index arithmetic -/

theorem Layout.index_lt (layout : Layout) {rows cols r c : Nat} (hr : r < rows) (hc : c < cols) :
    layout.index rows cols r c < rows * cols := by
  cases layout with
  | rowMajor =>
    show r * cols + c < rows * cols
    calc r * cols + c < r * cols + cols := by omega
      _ = (r + 1) * cols := by ring
      _ ≤ rows * cols := Nat.mul_le_mul_right _ hr
  | colMajor =>
    show c * rows + r < rows * cols
    calc c * rows + r < c * rows + rows := by omega
      _ = (c + 1) * rows := by ring
      _ ≤ cols * rows := Nat.mul_le_mul_right _ hc
      _ = rows * cols := Nat.mul_comm _ _

theorem mul_add_inj {n a b a' b' : Nat} (hb : b < n) (hb' : b' < n)
    (h : a * n + b = a' * n + b') : a = a' ∧ b = b' := by
  have h1 : (a * n + b) / n = a := by
    rw [Nat.mul_comm, Nat.mul_add_div (by omega), Nat.div_eq_of_lt hb]; rfl
  have h2 : (a' * n + b') / n = a' := by
    rw [Nat.mul_comm, Nat.mul_add_div (by omega), Nat.div_eq_of_lt hb']; rfl
  have ha : a = a' := by rw [← h1, ← h2, h]
  subst ha
  exact ⟨rfl, by omega⟩

theorem Layout.index_inj (layout : Layout) {rows cols r c r' c' : Nat}
    (hr : r < rows) (hc : c < cols) (hr' : r' < rows) (hc' : c' < cols)
    (h : layout.index rows cols r c = layout.index rows cols r' c') : r = r' ∧ c = c' := by
  cases layout with
  | rowMajor => exact mul_add_inj hc hc' h
  | colMajor => exact (mul_add_inj hr hr' h).symm

/-! ### The kernel -/

section kernel
variable {α : Type} [Zero α] [Add α] [Mul α]

theorem mem_cells {lo hi sz : Nat} {p : Nat × Nat} :
    p ∈ cells lo hi sz ↔ (lo ≤ p.1 ∧ p.1 < hi) ∧ p.2 < sz := by
  obtain ⟨r, c⟩ := p
  simp only [cells, List.mem_flatMap, List.mem_map, List.mem_range, List.mem_range'_1,
    Prod.mk.injEq]
  constructor
  · rintro ⟨r', ⟨h1, h2⟩, c', hc', rfl, rfl⟩
    exact ⟨⟨h1, by omega⟩, hc'⟩
  · rintro ⟨⟨h1, h2⟩, hc⟩
    exact ⟨r, ⟨h1, by omega⟩, c, hc, rfl, rfl⟩

theorem spmmRows_eq_cells (layout : Layout) (sp_vals : List α) (sp_cind sp_roff : List Int)
    (mx_vals : List α) (sx sy sz lo hi : Nat) (result : List α) :
    spmmRows layout sp_vals sp_cind sp_roff mx_vals sx sy sz lo hi result
      = (cells lo hi sz).foldl
          (fun acc p => acc.set (layout.index sx sz p.1 p.2)
            (dotRow layout sp_vals sp_cind sp_roff mx_vals sy sz p.1 p.2))
          result := by
  unfold spmmRows spmmRow cells
  rw [foldl_flatMap_map]

theorem spmmRows_append (layout : Layout) (sp_vals : List α) (sp_cind sp_roff : List Int)
    (mx_vals : List α) (sx sy sz : Nat) {a b c : Nat} (hab : a ≤ b) (hbc : b ≤ c)
    (result : List α) :
    spmmRows layout sp_vals sp_cind sp_roff mx_vals sx sy sz b c
        (spmmRows layout sp_vals sp_cind sp_roff mx_vals sx sy sz a b result)
      = spmmRows layout sp_vals sp_cind sp_roff mx_vals sx sy sz a c result := by
  unfold spmmRows
  rw [← List.foldl_append]
  have h := List.range'_append a (b - a) (c - b) 1
  have e1 : a + 1 * (b - a) = b := by omega
  have e2 : c - b + (b - a) = c - a := by omega
  rw [e1, e2] at h
  rw [h]

theorem rowStart_zero (sx nt : Nat) : rowStart sx nt 0 = 0 := by
  simp [rowStart]

theorem rowStart_mono (sx nt t : Nat) : rowStart sx nt t ≤ rowStart sx nt (t + 1) := by
  unfold rowStart
  exact Nat.div_le_div_right (Nat.mul_le_mul_right _ (Nat.le_succ t))

theorem rowStart_last (sx nt : Nat) (h : 0 < nt) : rowStart sx nt nt = sx := by
  unfold rowStart
  exact Nat.mul_div_cancel_left sx h

theorem workers_eq_rows (layout : Layout) (sp_vals : List α) (sp_cind sp_roff : List Int)
    (mx_vals : List α) (sx sy sz n : Nat) (result : List α) (k : Nat) :
    (List.range k).foldl
        (fun acc t => spmmRows layout sp_vals sp_cind sp_roff mx_vals sx sy sz
          (rowStart sx n t) (rowStart sx n (t + 1)) acc)
        result
      = spmmRows layout sp_vals sp_cind sp_roff mx_vals sx sy sz 0 (rowStart sx n k) result := by
  induction k with
  | zero => simp [spmmRows, rowStart_zero]
  | succ k ih =>
    rw [List.range_succ, List.foldl_append, ih, List.foldl_cons, List.foldl_nil]
    exact spmmRows_append layout sp_vals sp_cind sp_roff mx_vals sx sy sz (Nat.zero_le _)
      (rowStart_mono sx n k) result

/-- With at least one worker the kernel does what a single pass over all
rows does. -/
theorem spmm_eq_rows (layout : Layout) (sp_vals : List α) (sp_cind sp_roff : List Int)
    (mx_vals : List α) (sx sy sz : Int) (result : List α) (nt : Int) (hnt : 1 ≤ nt) :
    spmm layout sp_vals sp_cind sp_roff mx_vals sx sy sz result nt
      = spmmRows layout sp_vals sp_cind sp_roff mx_vals sx.toNat sy.toNat sz.toNat 0 sx.toNat
          result := by
  unfold spmm
  rw [workers_eq_rows, rowStart_last _ _ (by omega)]

/-- Without a worker the kernel writes nothing. -/
theorem spmm_no_worker (layout : Layout) (sp_vals : List α) (sp_cind sp_roff : List Int)
    (mx_vals : List α) (sx sy sz : Int) (result : List α) (nt : Int) (hnt : nt < 1) :
    spmm layout sp_vals sp_cind sp_roff mx_vals sx sy sz result nt = result := by
  unfold spmm
  have : nt.toNat = 0 := by omega
  rw [this]
  rfl

theorem spmmRows_length (layout : Layout) (sp_vals : List α) (sp_cind sp_roff : List Int)
    (mx_vals : List α) (sx sy sz lo hi : Nat) (result : List α) :
    (spmmRows layout sp_vals sp_cind sp_roff mx_vals sx sy sz lo hi result).length
      = result.length := by
  rw [spmmRows_eq_cells]
  exact foldl_set_length (fun p : Nat × Nat => layout.index sx sz p.1 p.2) _ _ _

/-- The kernel never changes the length of the result buffer. -/
theorem spmm_length (layout : Layout) (sp_vals : List α) (sp_cind sp_roff : List Int)
    (mx_vals : List α) (sx sy sz : Int) (result : List α) (nt : Int) :
    (spmm layout sp_vals sp_cind sp_roff mx_vals sx sy sz result nt).length = result.length := by
  unfold spmm
  rw [workers_eq_rows, spmmRows_length]

/-- Every cell of the result holds its row sum on return. -/
theorem spmm_cell (layout : Layout) (sp_vals : List α) (sp_cind sp_roff : List Int)
    (mx_vals : List α) (sx sy sz : Int) (result : List α) (nt : Int) (hnt : 1 ≤ nt)
    (hlen : result.length = sx.toNat * sz.toNat) {r c : Nat} (hr : r < sx.toNat)
    (hc : c < sz.toNat) :
    (spmm layout sp_vals sp_cind sp_roff mx_vals sx sy sz result nt)[
        layout.index sx.toNat sz.toNat r c]?
      = some (dotRow layout sp_vals sp_cind sp_roff mx_vals sy.toNat sz.toNat r c) := by
  rw [spmm_eq_rows _ _ _ _ _ _ _ _ _ _ hnt, spmmRows_eq_cells]
  refine foldl_set_written (fun p : Nat × Nat => layout.index sx.toNat sz.toNat p.1 p.2)
    (fun p : Nat × Nat => dotRow layout sp_vals sp_cind sp_roff mx_vals sy.toNat sz.toNat p.1 p.2)
    _ result (r, c) (mem_cells.2 ⟨⟨Nat.zero_le _, hr⟩, hc⟩) ?_ ?_
  · intro q hq hfq
    have hq' := mem_cells.1 hq
    obtain ⟨h1, h2⟩ := layout.index_inj hq'.1.2 hq'.2 hr hc hfq
    show dotRow _ _ _ _ _ _ _ q.1 q.2 = dotRow _ _ _ _ _ _ _ r c
    rw [h1, h2]
  · rw [hlen]
    exact layout.index_lt hr hc

/-- The order of the cell writes does not matter: every run that writes the
cells of all rows, in whatever order, leaves what the kernel leaves. -/
theorem spmmInOrder_perm (layout : Layout) (sp_vals : List α) (sp_cind sp_roff : List Int)
    (mx_vals : List α) (sx sy sz : Int) (result : List α) (nt : Int) (hnt : 1 ≤ nt)
    (order : List (Nat × Nat)) (horder : order.Perm (cells 0 sx.toNat sz.toNat)) :
    spmmInOrder layout sp_vals sp_cind sp_roff mx_vals sx.toNat sy.toNat sz.toNat order result
      = spmm layout sp_vals sp_cind sp_roff mx_vals sx sy sz result nt := by
  rw [spmm_eq_rows _ _ _ _ _ _ _ _ _ _ hnt, spmmRows_eq_cells]
  unfold spmmInOrder
  refine List.Perm.foldl_eq' horder (fun x hx y hy z => ?_) result
  have hx' := mem_cells.1 (horder.subset hx)
  have hy' := mem_cells.1 (horder.subset hy)
  by_cases hxy : layout.index sx.toNat sz.toNat x.1 x.2 = layout.index sx.toNat sz.toNat y.1 y.2
  · obtain ⟨h1, h2⟩ := layout.index_inj hx'.1.2 hx'.2 hy'.1.2 hy'.2 hxy
    have : x = y := Prod.ext h1 h2
    rw [this]
  · exact List.set_comm _ _ _ hxy

end kernel

/-! ### The gateway -/

section gateway
variable {α : Type}

/-- The gateway, once all nine arguments and the four scalars are found. -/
theorem mexFunction_eq (P : Platform α) (spmm : Kernel α) (h : Host α)
    (a0 a1 a2 a3 a7 : MxArray α) (sx sy sz nt : Int)
    (h0 : h.prhs[0]? = some a0) (h1 : h.prhs[1]? = some a1) (h2 : h.prhs[2]? = some a2)
    (h3 : h.prhs[3]? = some a3) (h4 : intArg P h.prhs 4 = some sx)
    (h5 : intArg P h.prhs 5 = some sy) (h6 : intArg P h.prhs 6 = some sz)
    (h7 : h.prhs[7]? = some a7) (h8 : intArg P h.prhs 8 = some nt) :
    mexFunction P spmm h
      = some { h with prhs := h.prhs.set 7 (storeDoubles P a7
          (spmm (doublePtr P a0) (intPtr P a1) (intPtr P a2) (doublePtr P a3) sx sy sz
            (doublePtr P a7) nt)) } := by
  simp [mexFunction, h0, h1, h2, h3, h4, h5, h6, h7, h8]

theorem intArg_eq (P : Platform α) (prhs : List (MxArray α)) (i : Nat) (a : MxArray α) (d : α)
    (ha : prhs[i]? = some a) (hd : (mxGetPr P a)[0]? = some d) :
    intArg P prhs i = some (P.toInt d) := by
  simp [intArg, ha, hd]

theorem intArg_isSome (P : Platform α) (prhs : List (MxArray α)) (i : Nat) :
    (intArg P prhs i).isSome ↔ ∃ a d, prhs[i]? = some a ∧ (mxGetPr P a)[0]? = some d := by
  unfold intArg
  cases hp : prhs[i]? with
  | none => simp
  | some a =>
    cases hd : (mxGetPr P a)[0]? with
    | none => simp [hd]
    | some d => simp [hd]

theorem intArg_lt (P : Platform α) (prhs : List (MxArray α)) (i : Nat)
    (hs : (intArg P prhs i).isSome) : i < prhs.length := by
  obtain ⟨a, d, ha, -⟩ := (intArg_isSome P prhs i).1 hs
  by_contra hlt
  rw [List.getElem?_eq_none (by omega)] at ha
  cases ha

/-- The gateway returns exactly when the argument list has nine entries and
the four scalar arguments have a first element. -/
theorem mexFunction_isSome (P : Platform α) (spmm : Kernel α) (h : Host α) :
    (mexFunction P spmm h).isSome ↔
      9 ≤ h.prhs.length ∧ (intArg P h.prhs 4).isSome ∧ (intArg P h.prhs 5).isSome ∧
        (intArg P h.prhs 6).isSome ∧ (intArg P h.prhs 8).isSome := by
  constructor
  · intro hs
    obtain ⟨out, hout⟩ := Option.isSome_iff_exists.1 hs
    simp only [mexFunction, Option.bind_eq_bind, Option.bind_eq_some, Option.pure_def] at hout
    obtain ⟨a0, -, a1, -, a2, -, a3, -, sx, h4, sy, h5, sz, h6, a7, -, nt, h8, -⟩ := hout
    have l8 := intArg_lt P h.prhs 8 (by simp [h8])
    exact ⟨by omega, by simp [h4], by simp [h5], by simp [h6], by simp [h8]⟩
  · rintro ⟨hlen, h4, h5, h6, h8⟩
    obtain ⟨sx, h4⟩ := Option.isSome_iff_exists.1 h4
    obtain ⟨sy, h5⟩ := Option.isSome_iff_exists.1 h5
    obtain ⟨sz, h6⟩ := Option.isSome_iff_exists.1 h6
    obtain ⟨nt, h8⟩ := Option.isSome_iff_exists.1 h8
    rw [mexFunction_eq P spmm h _ _ _ _ _ sx sy sz nt
      (List.getElem?_eq_getElem (by omega : 0 < h.prhs.length))
      (List.getElem?_eq_getElem (by omega : 1 < h.prhs.length))
      (List.getElem?_eq_getElem (by omega : 2 < h.prhs.length))
      (List.getElem?_eq_getElem (by omega : 3 < h.prhs.length)) h4 h5 h6
      (List.getElem?_eq_getElem (by omega : 7 < h.prhs.length)) h8]
    rfl

end gateway

/-! ### The conversion to `int` -/

theorem tdiv_eq_truncToZero (d : ℚ) : d.num.tdiv d.den = truncToZero d := by
  unfold truncToZero
  split_ifs with h
  · rw [Int.tdiv_eq_ediv (Rat.num_nonneg.2 h) (Int.natCast_nonneg _), Rat.floor_def]
  · have hneg : 0 ≤ -d := by linarith [not_le.1 h]
    have h1 : d.num.tdiv d.den = -((-d.num).tdiv d.den) := by
      rw [Int.neg_tdiv, neg_neg]
    have h2 : (-d.num).tdiv d.den = ⌊-d⌋ := by
      rw [Rat.floor_def, Rat.neg_num, Rat.neg_den]
      exact Int.tdiv_eq_ediv (by rw [← Rat.neg_num]; exact Rat.num_nonneg.2 hneg)
        (Int.natCast_nonneg _)
    rw [h1, h2, Int.floor_neg, neg_neg]

theorem truncToZero_range (d : ℚ) (h : |d| < 2147483648) :
    -2147483648 ≤ truncToZero d ∧ truncToZero d ≤ 2147483647 := by
  obtain ⟨hlo, hhi⟩ := abs_lt.1 h
  unfold truncToZero
  split_ifs with h0
  · have h1 : (0 : Int) ≤ ⌊d⌋ := Int.le_floor.2 (by simpa using h0)
    have h2 : ⌊d⌋ < 2147483648 := Int.floor_lt.2 (by simpa using hhi)
    omega
  · have h1 : ⌈d⌉ ≤ (0 : Int) := Int.ceil_le.2 (by simpa using le_of_lt (not_le.1 h0))
    have h2 : (-2147483648 : Int) < ⌈d⌉ := Int.lt_ceil.2 (by simpa using hlo)
    omega

/-- In the range of `int` the conversion is truncation toward zero. -/
theorem castInt_eq_truncToZero (d : ℚ) (h : |d| < 2147483648) :
    castInt d = truncToZero d := by
  unfold castInt
  simp only [tdiv_eq_truncToZero]
  rw [if_pos (truncToZero_range d h)]

theorem truncToZero_intCast (n : Int) : truncToZero (n : ℚ) = n := by
  unfold truncToZero
  split_ifs <;> simp

/-! ### The guarantee -/

section guarantee
variable {α : Type} [Zero α] [Add α] [Mul α]

theorem filter_rows {β : Type} (f : Nat → List (Nat × β)) (hf : ∀ r, ∀ e ∈ f r, e.1 = r)
    (n r : Nat) :
    ((List.range n).flatMap f).filter (fun e => decide (e.1 = r))
      = if r < n then f r else [] := by
  induction n with
  | zero => simp
  | succ n ih =>
    rw [List.range_succ, List.flatMap_append, List.filter_append, ih]
    simp only [List.flatMap_cons, List.flatMap_nil, List.append_nil]
    by_cases hrn : r = n
    · subst hrn
      have : List.filter (fun e => decide (e.1 = r)) (f r) = f r :=
        List.filter_eq_self.2 (fun e he => by simpa using hf r e he)
      simp [this]
    · have : List.filter (fun e => decide (e.1 = r)) (f n) = [] :=
        List.filter_eq_nil_iff.2 (fun e he => by
          have := hf n e he
          simp only [decide_eq_true_eq]
          omega)
      rw [this, List.append_nil]
      by_cases hlt : r < n
      · simp [hlt, Nat.lt_succ_of_lt hlt]
      · have : ¬ r < n + 1 := by omega
        simp [hlt, this]

/-- The sum the kernel forms for entry `(r, c)` is the guaranteed one. -/
theorem dotRow_eq_entrySum (layout : Layout) (values : List α)
    (columnIndices rowOffsets : List Int) (dense : List α) (numRows numCols numOutCols : Nat)
    (r c : Nat) (hr : r < numRows) :
    dotRow layout values columnIndices rowOffsets dense numCols numOutCols r c
      = entrySum layout values columnIndices rowOffsets dense numRows numCols numOutCols r c := by
  unfold entrySum csrEntries dotRow
  rw [filter_rows _ (fun r' e he => by
    obtain ⟨i, -, rfl⟩ := List.mem_map.1 he
    rfl) numRows r, if_pos hr, List.foldl_map]

end guarantee

section calls
variable {α : Type}

/-- The gateway on a well-typed call, for any kernel. -/
theorem mexFunction_of_isCall (P : Platform α) (kernel : Kernel α) (h : Host α)
    (values : List α) (columnIndices rowOffsets : List Int) (dense : List α) (sx sy sz : Int)
    (result : List α) (nt : Int)
    (hcall : IsCall P h values columnIndices rowOffsets dense sx sy sz result nt) :
    mexFunction P kernel h
      = some { h with prhs := h.prhs.set 7 (.real
          (kernel values columnIndices rowOffsets dense sx sy sz result nt)) } := by
  obtain ⟨h0, h1, h2, h3, h4, h5, h6, h7, h8⟩ := hcall
  rw [mexFunction_eq P kernel h _ _ _ _ _ sx sy sz nt h0 h1 h2 h3 h4 h5 h6 h7 h8]
  rfl

theorem resultOf_set (P : Platform α) (h : Host α) (a : MxArray α) (h7 : 7 < h.prhs.length) :
    resultOf P { h with prhs := h.prhs.set 7 a } = doublePtr P a := by
  unfold resultOf
  simp only [List.getElem?_set_self h7]

theorem isCall_length (P : Platform α) (h : Host α)
    (values : List α) (columnIndices rowOffsets : List Int) (dense : List α) (sx sy sz : Int)
    (result : List α) (nt : Int)
    (hcall : IsCall P h values columnIndices rowOffsets dense sx sy sz result nt) :
    7 < h.prhs.length := by
  have h7 := hcall.2.2.2.2.2.2.2.1
  by_contra hlt
  rw [List.getElem?_eq_none (by omega)] at h7
  cases h7

/-- The result buffer after a well-typed call, for any kernel. -/
theorem result_of_isCall (P : Platform α) (kernel : Kernel α) (h : Host α)
    (values : List α) (columnIndices rowOffsets : List Int) (dense : List α) (sx sy sz : Int)
    (result : List α) (nt : Int)
    (hcall : IsCall P h values columnIndices rowOffsets dense sx sy sz result nt) :
    ∃ out, mexFunction P kernel h = some out ∧
      resultOf P out = kernel values columnIndices rowOffsets dense sx sy sz result nt := by
  refine ⟨_, mexFunction_of_isCall P kernel h _ _ _ _ _ _ _ _ _ hcall, ?_⟩
  rw [resultOf_set P h _ (isCall_length P h _ _ _ _ _ _ _ _ _ hcall)]
  rfl

end calls

theorem intArg_congr {α : Type} (P : Platform α) (l l' : List (MxArray α)) (i : Nat)
    (hi : l'[i]? = l[i]?) : intArg P l' i = intArg P l i := by
  unfold intArg
  rw [hi]

/-- The gateway in terms of the nine arrays and the four first elements. -/
theorem mexFunction_forward {α : Type} (P : Platform α) (spmm : Kernel α) (h : Host α)
    (a0 a1 a2 a3 a4 a5 a6 a7 a8 : MxArray α) (d4 d5 d6 d8 : α)
    (h0 : h.prhs[0]? = some a0) (h1 : h.prhs[1]? = some a1) (h2 : h.prhs[2]? = some a2)
    (h3 : h.prhs[3]? = some a3) (h4 : h.prhs[4]? = some a4) (h5 : h.prhs[5]? = some a5)
    (h6 : h.prhs[6]? = some a6) (h7 : h.prhs[7]? = some a7) (h8 : h.prhs[8]? = some a8)
    (e4 : (mxGetPr P a4)[0]? = some d4) (e5 : (mxGetPr P a5)[0]? = some d5)
    (e6 : (mxGetPr P a6)[0]? = some d6) (e8 : (mxGetPr P a8)[0]? = some d8) :
    mexFunction P spmm h
      = some { h with prhs := h.prhs.set 7 (storeDoubles P a7
          (spmm (doublePtr P a0) (intPtr P a1) (intPtr P a2) (doublePtr P a3)
            (P.toInt d4) (P.toInt d5) (P.toInt d6) (doublePtr P a7) (P.toInt d8))) } :=
  mexFunction_eq P spmm h a0 a1 a2 a3 a7 _ _ _ _ h0 h1 h2 h3
    (intArg_eq P h.prhs 4 a4 d4 h4 e4) (intArg_eq P h.prhs 5 a5 d5 h5 e5)
    (intArg_eq P h.prhs 6 a6 d6 h6 e6) h7 (intArg_eq P h.prhs 8 a8 d8 h8 e8)

/-! ### The gateway on host memory -/

section memory
variable {α : Type}

theorem intArgMem_view (P : Platform α) (h : HostMem α) (i : Nat)
    (hvalid : ∀ p ∈ h.prhs, p < h.mem.length) :
    intArg P h.view.prhs i = intArgMem P h i := by
  unfold intArg intArgMem HostMem.view
  simp only [List.getElem?_map]
  cases hp : h.prhs[i]? with
  | none => rfl
  | some p =>
    have hlt : p < h.mem.length := hvalid p (List.getElem?_mem hp)
    simp [List.getD_eq_getElem?_getD, List.getElem?_eq_getElem hlt]

theorem view_set (h : HostMem α) (p7 : Nat) (a : MxArray α) (h7 : h.prhs[7]? = some p7)
    (hlt : p7 < h.mem.length) (hun : ResultUnshared h) :
    HostMem.view { h with mem := h.mem.set p7 a }
      = { h.view with prhs := h.view.prhs.set 7 a } := by
  have hpl : p7 ∉ h.plhs := fun hq => hun.1 p7 hq h7
  have hpr : ∀ i : Nat, h.prhs[i]? = some p7 → i = 7 := by
    intro i hi
    by_contra hne
    have hlt : i < h.prhs.length := by
      by_contra hc
      rw [List.getElem?_eq_none (by omega)] at hi
      cases hi
    exact hun.2 i hlt hne (hi.trans h7.symm)
  unfold HostMem.view
  simp only [Host.mk.injEq, true_and]
  constructor
  · apply List.map_congr_left
    intro q hq
    have hne : p7 ≠ q := fun e => hpl (e ▸ hq)
    simp [List.getD_eq_getElem?_getD, List.getElem?_set_ne hne]
  · apply List.ext_getElem?
    intro i
    by_cases hi : 7 = i
    · subst hi
      have h7l : 7 < h.prhs.length := by
        by_contra hc
        rw [List.getElem?_eq_none (by omega)] at h7
        cases h7
      rw [List.getElem?_set_self (by simpa using h7l), List.getElem?_map, h7]
      simp [List.getD_eq_getElem?_getD, List.getElem?_set_self hlt]
    · rw [List.getElem?_set_ne hi, List.getElem?_map, List.getElem?_map]
      cases hq : h.prhs[i]? with
      | none => rfl
      | some q =>
        have hne : p7 ≠ q := by
          intro e
          subst e
          exact hi (hpr i hq).symm
        simp [List.getD_eq_getElem?_getD, List.getElem?_set_ne hne]

/-- The gateway on host memory, once its nine pointers and four scalars are
found: the memory on return is what `spmm` leaves. -/
theorem mexFunctionMem_eq (P : Platform α) (spmm : KernelMem α) (h : HostMem α)
    (p0 p1 p2 p3 p7 : Nat) (sx sy sz nt : Int) (mem' : List (MxArray α))
    (h0 : h.prhs[0]? = some p0) (h1 : h.prhs[1]? = some p1) (h2 : h.prhs[2]? = some p2)
    (h3 : h.prhs[3]? = some p3) (h4 : intArgMem P h 4 = some sx)
    (h5 : intArgMem P h 5 = some sy) (h6 : intArgMem P h 6 = some sz)
    (h7 : h.prhs[7]? = some p7) (h8 : intArgMem P h 8 = some nt)
    (hk : spmm h.mem p0 p1 p2 p3 sx sy sz p7 nt = some mem') :
    mexFunctionMem P spmm h = some { h with mem := mem' } := by
  simp [mexFunctionMem, h0, h1, h2, h3, h4, h5, h6, h7, h8, hk]

/-- What a run of the gateway on host memory consists of. -/
theorem mexFunctionMem_some (P : Platform α) (spmm : KernelMem α) (h out : HostMem α)
    (hrun : mexFunctionMem P spmm h = some out) :
    ∃ p0 p1 p2 p3 p7 sx sy sz nt mem',
      h.prhs[0]? = some p0 ∧ h.prhs[1]? = some p1 ∧ h.prhs[2]? = some p2 ∧
      h.prhs[3]? = some p3 ∧ intArgMem P h 4 = some sx ∧ intArgMem P h 5 = some sy ∧
      intArgMem P h 6 = some sz ∧ h.prhs[7]? = some p7 ∧ intArgMem P h 8 = some nt ∧
      spmm h.mem p0 p1 p2 p3 sx sy sz p7 nt = some mem' ∧ out = { h with mem := mem' } := by
  simp only [mexFunctionMem, Option.bind_eq_bind, Option.bind_eq_some, Option.pure_def,
    Option.some.injEq] at hrun
  obtain ⟨p0, h0, p1, h1, p2, h2, p3, h3, sx, h4, sy, h5, sz, h6, p7, h7, nt, h8, mem', hk,
    hout⟩ := hrun
  exact ⟨p0, p1, p2, p3, p7, sx, sy, sz, nt, mem', h0, h1, h2, h3, h4, h5, h6, h7, h8, hk,
    hout.symm⟩

/-- What a run of an in-place kernel consists of. -/
theorem inPlace_some (P : Platform α) (kernel : Kernel α) (mem mem' : List (MxArray α))
    (p0 p1 p2 p3 p7 : Nat) (sx sy sz nt : Int)
    (hk : inPlace P kernel mem p0 p1 p2 p3 sx sy sz p7 nt = some mem') :
    ∃ a0 a1 a2 a3 a7, mem[p0]? = some a0 ∧ mem[p1]? = some a1 ∧ mem[p2]? = some a2 ∧
      mem[p3]? = some a3 ∧ mem[p7]? = some a7 ∧
      mem' = mem.set p7 (storeDoubles P a7
        (kernel (doublePtr P a0) (intPtr P a1) (intPtr P a2) (doublePtr P a3) sx sy sz
          (doublePtr P a7) nt)) := by
  simp only [inPlace, Option.bind_eq_bind, Option.bind_eq_some, Option.pure_def,
    Option.some.injEq] at hk
  obtain ⟨a0, h0, a1, h1, a2, h2, a3, h3, a7, h7, hm⟩ := hk
  exact ⟨a0, a1, a2, a3, a7, h0, h1, h2, h3, h7, hm.symm⟩

theorem intArgMem_lt (P : Platform α) (h : HostMem α) (i : Nat) (sx : Int)
    (hs : intArgMem P h i = some sx) : i < h.prhs.length := by
  simp only [intArgMem, Option.bind_eq_bind, Option.bind_eq_some] at hs
  obtain ⟨p, hp, -⟩ := hs
  by_contra hlt
  rw [List.getElem?_eq_none (by omega)] at hp
  cases hp

/-- When every argument is a valid pointer and the result array is passed
once only, the gateway on host memory is the gateway on the arrays. -/
theorem mexFunctionMem_view (P : Platform α) (kernel : Kernel α) (h : HostMem α)
    (hvalid : ∀ p ∈ h.prhs, p < h.mem.length) (hun : ResultUnshared h) :
    (mexFunctionMem P (inPlace P kernel) h).map HostMem.view
      = mexFunction P kernel h.view := by
  have lk : ∀ (i p : Nat), h.prhs[i]? = some p →
      h.view.prhs[i]? = some (h.mem.getD p (.real [])) := by
    intro i p hp
    simp [HostMem.view, List.getElem?_map, hp]
  have val : ∀ (i p : Nat), h.prhs[i]? = some p → h.mem[p]? = some (h.mem.getD p (.real [])) := by
    intro i p hp
    have hlt := hvalid p (List.getElem?_mem hp)
    simp [List.getD_eq_getElem?_getD, List.getElem?_eq_getElem hlt]
  have hlen : h.view.prhs.length = h.prhs.length := by simp [HostMem.view]
  by_cases hok : 9 ≤ h.prhs.length ∧ (intArgMem P h 4).isSome ∧ (intArgMem P h 5).isSome ∧
      (intArgMem P h 6).isSome ∧ (intArgMem P h 8).isSome
  · obtain ⟨h9, e4, e5, e6, e8⟩ := hok
    obtain ⟨sx, h4⟩ := Option.isSome_iff_exists.1 e4
    obtain ⟨sy, h5⟩ := Option.isSome_iff_exists.1 e5
    obtain ⟨sz, h6⟩ := Option.isSome_iff_exists.1 e6
    obtain ⟨nt, h8⟩ := Option.isSome_iff_exists.1 e8
    have h0 : h.prhs[0]? = some h.prhs[0] := List.getElem?_eq_getElem (by omega)
    have h1 : h.prhs[1]? = some h.prhs[1] := List.getElem?_eq_getElem (by omega)
    have h2 : h.prhs[2]? = some h.prhs[2] := List.getElem?_eq_getElem (by omega)
    have h3 : h.prhs[3]? = some h.prhs[3] := List.getElem?_eq_getElem (by omega)
    have h7 : h.prhs[7]? = some h.prhs[7] := List.getElem?_eq_getElem (by omega)
    have hk : inPlace P kernel h.mem h.prhs[0] h.prhs[1] h.prhs[2] h.prhs[3] sx sy sz
        h.prhs[7] nt = some (h.mem.set h.prhs[7] (storeDoubles P (h.mem.getD h.prhs[7] (.real []))
          (kernel (doublePtr P (h.mem.getD h.prhs[0] (.real [])))
            (intPtr P (h.mem.getD h.prhs[1] (.real [])))
            (intPtr P (h.mem.getD h.prhs[2] (.real [])))
            (doublePtr P (h.mem.getD h.prhs[3] (.real []))) sx sy sz
            (doublePtr P (h.mem.getD h.prhs[7] (.real []))) nt))) := by
      simp only [inPlace, val 0 _ h0, val 1 _ h1, val 2 _ h2, val 3 _ h3, val 7 _ h7,
        Option.bind_eq_bind, Option.some_bind, Option.pure_def]
    rw [mexFunctionMem_eq P (inPlace P kernel) h _ _ _ _ _ sx sy sz nt _ h0 h1 h2 h3 h4 h5 h6
        h7 h8 hk,
      mexFunction_eq P kernel h.view _ _ _ _ _ sx sy sz nt (lk 0 _ h0) (lk 1 _ h1) (lk 2 _ h2)
        (lk 3 _ h3) ((intArgMem_view P h 4 hvalid).trans h4)
        ((intArgMem_view P h 5 hvalid).trans h5) ((intArgMem_view P h 6 hvalid).trans h6)
        (lk 7 _ h7) ((intArgMem_view P h 8 hvalid).trans h8),
      Option.map_some', view_set h _ _ h7 (hvalid _ (List.getElem?_mem h7)) hun]
  · have hR : mexFunction P kernel h.view = none := by
      cases hm : mexFunction P kernel h.view with
      | none => rfl
      | some out =>
        have := (mexFunction_isSome P kernel h.view).1 (by simp [hm])
        rw [hlen] at this
        simp only [intArgMem_view P h _ hvalid] at this
        exact absurd this hok
    have hL : mexFunctionMem P (inPlace P kernel) h = none := by
      cases hm : mexFunctionMem P (inPlace P kernel) h with
      | none => rfl
      | some out =>
        obtain ⟨p0, p1, p2, p3, p7, sx, sy, sz, nt, mem', -, -, -, -, h4, h5, h6, -, h8, -, -⟩ :=
          mexFunctionMem_some P _ h out hm
        have := intArgMem_lt P h 8 nt h8
        exact absurd ⟨by omega, by simp [h4], by simp [h5], by simp [h6], by simp [h8]⟩ hok
    rw [hR, hL]
    rfl

end memory

/-! # The claims -/

/-- Claim C1, as amended.  Whenever the argument list has nine entries and the
entries 4, 5, 6 and 8 have a first element, `mexFunction` computes nothing of
its own: it returns the host state in which the result array `prhs[7]` holds
what one call of `spmm` leaves there, the call being
`spmm(prhs[0] as doubles, prhs[1] as ints, prhs[2] as ints, prhs[3] as doubles,
sx, sy, sz, prhs[7] as doubles, nt)` with `sx`, `sy`, `sz`, `nt` converted from
the first elements of `prhs[4]`, `prhs[5]`, `prhs[6]`, `prhs[8]`.  This holds
for every kernel `spmm` and every platform. -/
theorem mexFunction_calls_spmm_once {α : Type} (P : Platform α) (spmm : Kernel α) (h : Host α)
    (a0 a1 a2 a3 a4 a5 a6 a7 a8 : MxArray α) (d4 d5 d6 d8 : α)
    (h0 : h.prhs[0]? = some a0) (h1 : h.prhs[1]? = some a1) (h2 : h.prhs[2]? = some a2)
    (h3 : h.prhs[3]? = some a3) (h4 : h.prhs[4]? = some a4) (h5 : h.prhs[5]? = some a5)
    (h6 : h.prhs[6]? = some a6) (h7 : h.prhs[7]? = some a7) (h8 : h.prhs[8]? = some a8)
    (e4 : (mxGetPr P a4)[0]? = some d4) (e5 : (mxGetPr P a5)[0]? = some d5)
    (e6 : (mxGetPr P a6)[0]? = some d6) (e8 : (mxGetPr P a8)[0]? = some d8) :
    mexFunction P spmm h
      = some { h with prhs := h.prhs.set 7 (storeDoubles P a7
          (spmm (doublePtr P a0) (intPtr P a1) (intPtr P a2) (doublePtr P a3)
            (P.toInt d4) (P.toInt d5) (P.toInt d6) (doublePtr P a7) (P.toInt d8))) } :=
  mexFunction_forward P spmm h a0 a1 a2 a3 a4 a5 a6 a7 a8 d4 d5 d6 d8
    h0 h1 h2 h3 h4 h5 h6 h7 h8 e4 e5 e6 e8

/-- Witness for claim C1: the end-to-end call of the specification, with any
kernel in the place of `spmm`. -/
theorem mexFunction_calls_spmm_once_witness :
    9 ≤ (call [1, 2] [0, 1] [0, 1, 2] [3, 4] 2 2 1 [7, 7] 1).prhs.length ∧
      ∀ kernel : Kernel ℚ,
        mexFunction refPlatform kernel (call [1, 2] [0, 1] [0, 1, 2] [3, 4] 2 2 1 [7, 7] 1)
          = some (hostOf [.real [1, 2], .int32 [0, 1], .int32 [0, 1, 2], .real [3, 4],
              .real [2], .real [2], .real [1],
              .real (kernel [1, 2] [0, 1] [0, 1, 2] [3, 4] (castInt 2) (castInt 2) (castInt 1)
                [7, 7] (castInt 1)),
              .real [1]]) :=
  ⟨by decide, fun kernel => mexFunction_calls_spmm_once refPlatform kernel _
    (.real [1, 2]) (.int32 [0, 1]) (.int32 [0, 1, 2]) (.real [3, 4]) (.real [2]) (.real [2])
    (.real [1]) (.real [7, 7]) (.real [1]) 2 2 1 1 rfl rfl rfl rfl rfl rfl rfl rfl rfl
    rfl rfl rfl rfl⟩

/-- Counterexample to claim C1 as stated: an argument list of nine entries whose
fifth entry is an empty array.  The lookup `(mxGetPr(prhs[4]))[0]` fails, so
whatever the kernel, `spmm` is not reached. -/
theorem mexFunction_empty_scalar_faults :
    9 ≤ emptyScalarCall.prhs.length ∧
      ∀ kernel : Kernel ℚ, mexFunction refPlatform kernel emptyScalarCall = none :=
  ⟨by decide, fun _ => rfl⟩

/-- Claim C2.  For a well-formed sparse matrix in compressed-row form, a dense
matrix of `numCols × numOutCols` entries and a thread count of at least one,
the call returns and every entry `result[r, c]` then is the sum over the stored
entries `(r, k, v)` of `v * dense[k, c]`.  No law of arithmetic is assumed and
both element orders of the dense buffers are covered. -/
theorem multiply_entry_sums {α : Type} [Zero α] [Add α] [Mul α] (P : Platform α)
    (layout : Layout) (h : Host α) (values : List α) (columnIndices rowOffsets : List Int)
    (dense result : List α) (numRows numCols numOutCols : Nat) (threadCount : Int)
    (hcall : IsCall P h values columnIndices rowOffsets dense numRows numCols numOutCols
      result threadCount)
    (hwf : WellFormed values columnIndices rowOffsets dense result numRows numCols numOutCols)
    (hnt : 1 ≤ threadCount) :
    ∃ out, mexFunction P (spmm layout) h = some out ∧
      ∀ r c, r < numRows → c < numOutCols →
        (resultOf P out)[layout.index numRows numOutCols r c]?
          = some (entrySum layout values columnIndices rowOffsets dense
              numRows numCols numOutCols r c) := by
  obtain ⟨out, hout, hres⟩ := result_of_isCall P (spmm layout) h _ _ _ _ _ _ _ _ _ hcall
  refine ⟨out, hout, fun r c hr hc => ?_⟩
  rw [hres]
  have hlen : result.length = (numRows : Int).toNat * (numOutCols : Int).toNat := by
    simpa using hwf.2.2.2.2.2.2.2
  have := spmm_cell layout values columnIndices rowOffsets dense numRows numCols numOutCols
    result threadCount hnt hlen (r := r) (c := c) (by simpa using hr) (by simpa using hc)
  simp only [Int.toNat_ofNat] at this
  rw [this, dotRow_eq_entrySum layout values columnIndices rowOffsets dense numRows numCols
    numOutCols r c hr]

/-- Witness for claim C2, the end-to-end example of the specification: values
`[1, 2]`, column indices `[0, 1]`, row offsets `[0, 1, 2]` and the dense matrix
`[3, 4]` give the result `[3, 8]`, in either element order. -/
theorem multiply_entry_sums_witness :
    IsCall refPlatform (call [1, 2] [0, 1] [0, 1, 2] [3, 4] 2 2 1 [7, 7] 1)
        [1, 2] [0, 1] [0, 1, 2] [3, 4] (2 : Nat) (2 : Nat) (1 : Nat) [7, 7] 1 ∧
      WellFormed ([1, 2] : List ℚ) [0, 1] [0, 1, 2] [3, 4] [7, 7] 2 2 1 ∧
      (∀ layout, ∃ out,
        mexFunction refPlatform (spmm layout)
            (call [1, 2] [0, 1] [0, 1, 2] [3, 4] 2 2 1 [7, 7] 1) = some out ∧
          ∀ r c, r < 2 → c < 1 →
            (resultOf refPlatform out)[layout.index 2 1 r c]?
              = some (entrySum layout [1, 2] [0, 1] [0, 1, 2] [3, 4] 2 2 1 r c)) ∧
      ∀ layout,
        mexFunction refPlatform (spmm layout)
            (call [1, 2] [0, 1] [0, 1, 2] [3, 4] 2 2 1 [7, 7] 1)
          = some (call [1, 2] [0, 1] [0, 1, 2] [3, 4] 2 2 1 [3, 8] 1) :=
  ⟨by unfold IsCall; decide!, by decide,
    fun layout => multiply_entry_sums refPlatform layout _ [1, 2] [0, 1] [0, 1, 2] [3, 4]
      [7, 7] 2 2 1 1 (by unfold IsCall; decide!) (by decide) (by decide),
    fun layout => by cases layout <;> decide!⟩

/-- Counterexample to claim C3 as stated: row offsets `[0, 1, 2, 3]` for a
matrix of two rows, so their length is not `numRows + 1`, and a result buffer
pre-filled with the sentinel 7.  The call is not rejected, with any kernel; with
the multiply of the specification it overwrites the sentinels with `[3, 8]`. -/
theorem multiply_bad_rowOffsets_not_rejected :
    ([0, 1, 2, 3] : List Int).length ≠ 2 + 1 ∧
      ¬ WellFormed ([1, 2] : List ℚ) [0, 1] [0, 1, 2, 3] [3, 4] [7, 7] 2 2 1 ∧
      (∀ kernel : Kernel ℚ,
        (mexFunction refPlatform kernel
          (call [1, 2] [0, 1] [0, 1, 2, 3] [3, 4] 2 2 1 [7, 7] 1)).isSome) ∧
      mexFunction refPlatform (spmm .rowMajor)
          (call [1, 2] [0, 1] [0, 1, 2, 3] [3, 4] 2 2 1 [7, 7] 1)
        = some (call [1, 2] [0, 1] [0, 1, 2, 3] [3, 4] 2 2 1 [3, 8] 1) :=
  ⟨by decide, by decide, fun _ => rfl, by decide!⟩

/-- Claim C3, as amended.  The gateway validates nothing: for a call whose
arrays and scalars violate a shape or length invariant of the data model, such
as row offsets whose length is not `numRows + 1`, `mexFunction` still
returns, having called `spmm` on the arguments as they are; the result buffer
holds what `spmm` left there.  This holds for every kernel `spmm`. -/
theorem mexFunction_no_dimension_check {α : Type} (P : Platform α) (spmm : Kernel α)
    (h : Host α) (values : List α) (columnIndices rowOffsets : List Int)
    (dense result : List α) (numRows numCols numOutCols : Nat) (threadCount : Int)
    (hcall : IsCall P h values columnIndices rowOffsets dense numRows numCols numOutCols
      result threadCount)
    (_hbad : ¬ WellFormed values columnIndices rowOffsets dense result
      numRows numCols numOutCols) :
    mexFunction P spmm h
      = some { h with prhs := h.prhs.set 7 (.real
          (spmm values columnIndices rowOffsets dense numRows numCols numOutCols
            result threadCount)) } :=
  mexFunction_of_isCall P spmm h _ _ _ _ _ _ _ _ _ hcall

/-- Witness for claim C3: the call with row offsets `[0, 1, 2, 3]` for two
rows. -/
theorem mexFunction_no_dimension_check_witness :
    ¬ WellFormed ([1, 2] : List ℚ) [0, 1] [0, 1, 2, 3] [3, 4] [7, 7] 2 2 1 ∧
      ∀ kernel : Kernel ℚ,
        mexFunction refPlatform kernel (call [1, 2] [0, 1] [0, 1, 2, 3] [3, 4] 2 2 1 [7, 7] 1)
          = some (hostOf [.real [1, 2], .int32 [0, 1], .int32 [0, 1, 2, 3], .real [3, 4],
              .real [2], .real [2], .real [1],
              .real (kernel [1, 2] [0, 1] [0, 1, 2, 3] [3, 4] 2 2 1 [7, 7] 1), .real [1]]) :=
  ⟨by decide, fun kernel => mexFunction_no_dimension_check refPlatform kernel _
    [1, 2] [0, 1] [0, 1, 2, 3] [3, 4] [7, 7] 2 2 1 1 (by unfold IsCall; decide!) (by decide)⟩

/-- Counterexample to claim C4 as stated: a call whose thread count argument
is 0.  The gateway converts it to `nt = 0` and returns normally, with any
kernel; no error is raised. -/
theorem multiply_zero_threads_not_rejected :
    intArg refPlatform (call [1, 2] [0, 1] [0, 1, 2] [3, 4] 2 2 1 [7, 7] 0).prhs 8 = some 0 ∧
      (∀ kernel : Kernel ℚ,
        (mexFunction refPlatform kernel
          (call [1, 2] [0, 1] [0, 1, 2] [3, 4] 2 2 1 [7, 7] 0)).isSome) ∧
      mexFunction refPlatform (spmm .rowMajor)
          (call [1, 2] [0, 1] [0, 1, 2] [3, 4] 2 2 1 [7, 7] 0)
        = some (call [1, 2] [0, 1] [0, 1, 2] [3, 4] 2 2 1 [7, 7] 0) :=
  ⟨by decide!, fun _ => rfl, by decide!⟩

/-- Claim C4, as amended.  The gateway does not check the thread count: for a
call whose thread count is less than one, `mexFunction` returns normally,
having passed `nt` to `spmm` as it is, for every kernel `spmm`; and with the
multiply of the specification, which then runs no worker, the host state on
return is the one on entry, so the result buffer is left untouched. -/
theorem mexFunction_no_thread_check {α : Type} [Zero α] [Add α] [Mul α] (P : Platform α)
    (layout : Layout) (h : Host α) (values : List α) (columnIndices rowOffsets : List Int)
    (dense : List α) (sx sy sz : Int) (result : List α) (threadCount : Int)
    (hcall : IsCall P h values columnIndices rowOffsets dense sx sy sz result threadCount)
    (hnt : threadCount < 1) :
    (∀ kernel : Kernel α,
        mexFunction P kernel h
          = some { h with prhs := h.prhs.set 7 (.real
              (kernel values columnIndices rowOffsets dense sx sy sz result threadCount)) }) ∧
      mexFunction P (spmm layout) h = some h := by
  refine ⟨fun kernel => mexFunction_of_isCall P kernel h _ _ _ _ _ _ _ _ _ hcall, ?_⟩
  rw [mexFunction_of_isCall P (spmm layout) h _ _ _ _ _ _ _ _ _ hcall,
    spmm_no_worker _ _ _ _ _ _ _ _ _ _ hnt]
  have h7 := hcall.2.2.2.2.2.2.2.1
  have hlt := isCall_length P h _ _ _ _ _ _ _ _ _ hcall
  have hset : h.prhs.set 7 (.real result) = h.prhs := by
    apply List.ext_getElem?
    intro i
    by_cases hi : 7 = i
    · subst hi
      rw [List.getElem?_set_self hlt, h7]
    · rw [List.getElem?_set_ne hi]
  rw [hset]

/-- Witness for claim C4: the end-to-end call with thread count 0. -/
theorem mexFunction_no_thread_check_witness :
    (0 : Int) < 1 ∧
      ∀ layout,
        mexFunction refPlatform (spmm layout)
            (call [1, 2] [0, 1] [0, 1, 2] [3, 4] 2 2 1 [7, 7] 0)
          = some (call [1, 2] [0, 1] [0, 1, 2] [3, 4] 2 2 1 [7, 7] 0) :=
  ⟨by decide, fun layout => (mexFunction_no_thread_check refPlatform layout _
    [1, 2] [0, 1] [0, 1, 2] [3, 4] 2 2 1 [7, 7] 0 (by unfold IsCall; decide!) (by decide)).2⟩

/-- Counterexample to claim C5 as stated: one array, `[7, 7]`, passed both as
the dense matrix `prhs[3]` and as the result `prhs[7]`.  The gateway hands the
same pointer to `spmm` as `mx_vals` and as `result`, so the write through
`result` changes the dense values: they are `[7, 7]` on entry and `[7, 14]` on
return. -/
theorem multiply_shared_result_changes_dense :
    sharedCall.prhs[3]? = some 3 ∧ sharedCall.prhs[7]? = some 3 ∧
      sharedCall.mem[3]? = some (.real [7, 7]) ∧
      (mexFunctionMem refPlatform (inPlace refPlatform (spmm .rowMajor)) sharedCall).map
          (fun out => out.mem[3]?) = some (some (.real [7, 14])) :=
  ⟨by decide, by decide, by decide!, by decide!⟩

/-- Claim C5, as amended.  Whenever the call returns, the only thing that has
changed is the contents of the result buffer, the array passed as `prhs[7]`:
`nlhs`, `nrhs`, the pointer lists `plhs` and `prhs`, the number of host arrays
and every host array at another address are as on entry, and the result buffer
has as many elements as before, so it was neither allocated nor resized.  An
argument that is that same array changes with it; when the result array is
passed once only, every output and every argument other than `prhs[7]` (sparse
values, column indices, row offsets, dense values, the scalars) reads as on
entry. -/
theorem multiply_changes_result_buffer_only {α : Type} [Zero α] [Add α] [Mul α]
    (P : Platform α) (layout : Layout) (h out : HostMem α)
    (hrun : mexFunctionMem P (inPlace P (spmm layout)) h = some out) :
    out.nlhs = h.nlhs ∧ out.plhs = h.plhs ∧ out.nrhs = h.nrhs ∧ out.prhs = h.prhs ∧
      out.mem.length = h.mem.length ∧
      ∃ p7 a7 ys, h.prhs[7]? = some p7 ∧ h.mem[p7]? = some a7 ∧
        out.mem[p7]? = some (storeDoubles P a7 ys) ∧
        ys.length = (doublePtr P a7).length ∧
        (∀ q, q ≠ p7 → out.mem[q]? = h.mem[q]?) ∧
        (ResultUnshared h →
          out.view.plhs = h.view.plhs ∧ ∀ i, i ≠ 7 → out.view.prhs[i]? = h.view.prhs[i]?) := by
  obtain ⟨p0, p1, p2, p3, p7, sx, sy, sz, nt, mem', -, -, -, -, -, -, -, h7, -, hk, hout⟩ :=
    mexFunctionMem_some P _ h out hrun
  obtain ⟨a0, a1, a2, a3, a7, -, -, -, -, m7, hmem⟩ := inPlace_some P _ _ _ _ _ _ _ _ _ _ _ _ hk
  subst hout
  subst hmem
  have hlt : p7 < h.mem.length := by
    by_contra hc
    rw [List.getElem?_eq_none (by omega)] at m7
    cases m7
  refine ⟨rfl, rfl, rfl, rfl, List.length_set _ _ _, p7, a7, _, h7, m7,
    List.getElem?_set_self hlt, spmm_length _ _ _ _ _ _ _ _ _ _,
    fun q hq => List.getElem?_set_ne (Ne.symm hq), fun hun => ?_⟩
  rw [view_set h p7 _ h7 hlt hun]
  exact ⟨rfl, fun i hi => List.getElem?_set_ne (Ne.symm hi)⟩

/-- Witness for claim C5: the end-to-end call of the specification, nine
different arrays. -/
theorem multiply_changes_result_buffer_only_witness :
    mexFunctionMem refPlatform (inPlace refPlatform (spmm .rowMajor))
        (callMem [1, 2] [0, 1] [0, 1, 2] [3, 4] 2 2 1 [7, 7] 1)
      = some (callMem [1, 2] [0, 1] [0, 1, 2] [3, 4] 2 2 1 [3, 8] 1) ∧
    ResultUnshared (callMem [1, 2] [0, 1] [0, 1, 2] [3, 4] 2 2 1 [7, 7] 1) ∧
    (∀ i, i ≠ 7 →
      (callMem [1, 2] [0, 1] [0, 1, 2] [3, 4] 2 2 1 [3, 8] 1).view.prhs[i]?
        = (callMem [1, 2] [0, 1] [0, 1, 2] [3, 4] 2 2 1 [7, 7] 1).view.prhs[i]?) :=
  have hrun : mexFunctionMem refPlatform (inPlace refPlatform (spmm .rowMajor))
      (callMem [1, 2] [0, 1] [0, 1, 2] [3, 4] 2 2 1 [7, 7] 1)
        = some (callMem [1, 2] [0, 1] [0, 1, 2] [3, 4] 2 2 1 [3, 8] 1) := by decide!
  have hun : ResultUnshared (callMem [1, 2] [0, 1] [0, 1, 2] [3, 4] 2 2 1 [7, 7] 1) := by
    decide
  have ⟨_, _, _, _, _, _, _, _, _, _, _, _, _, hv⟩ :=
    multiply_changes_result_buffer_only refPlatform .rowMajor _ _ hrun
  ⟨hrun, hun, (hv hun).2⟩

/-- Claim C7.  For a well-formed sparse matrix and a row `r` without stored
entries (`rowOffsets[r] = rowOffsets[r+1]`), the call returns and every entry
`result[r, c]` then is zero, for every dense matrix and whatever the result
buffer held before. -/
theorem multiply_empty_row_zero {α : Type} [Zero α] [Add α] [Mul α] (P : Platform α)
    (layout : Layout) (h : Host α) (values : List α) (columnIndices rowOffsets : List Int)
    (dense result : List α) (numRows numCols numOutCols : Nat) (threadCount : Int) (r : Nat)
    (hcall : IsCall P h values columnIndices rowOffsets dense numRows numCols numOutCols
      result threadCount)
    (hwf : WellFormed values columnIndices rowOffsets dense result numRows numCols numOutCols)
    (hnt : 1 ≤ threadCount) (hr : r < numRows)
    (hempty : rowOffsets[r]? = rowOffsets[r + 1]?) :
    ∃ out, mexFunction P (spmm layout) h = some out ∧
      ∀ c, c < numOutCols →
        (resultOf P out)[layout.index numRows numOutCols r c]? = some 0 := by
  obtain ⟨out, hout, hres⟩ := result_of_isCall P (spmm layout) h _ _ _ _ _ _ _ _ _ hcall
  refine ⟨out, hout, fun c hc => ?_⟩
  rw [hres]
  have hlen : result.length = (numRows : Int).toNat * (numOutCols : Int).toNat := by
    simpa using hwf.2.2.2.2.2.2.2
  have := spmm_cell layout values columnIndices rowOffsets dense numRows numCols numOutCols
    result threadCount hnt hlen (r := r) (c := c) (by simpa using hr) (by simpa using hc)
  simp only [Int.toNat_ofNat] at this
  rw [this]
  have hidx : indexAt rowOffsets (r + 1) = indexAt rowOffsets r := by
    unfold indexAt
    rw [List.getD_eq_getElem?_getD, List.getD_eq_getElem?_getD, hempty]
  unfold dotRow
  rw [hidx, Nat.sub_self]
  rfl

/-- Witness for claim C7: a matrix of three rows whose middle row is empty. -/
theorem multiply_empty_row_zero_witness :
    WellFormed ([5, 6] : List ℚ) [0, 1] [0, 1, 1, 2] [3, 4] [7, 7, 7] 3 2 1 ∧
      ([0, 1, 1, 2] : List Int)[1]? = ([0, 1, 1, 2] : List Int)[1 + 1]? ∧
      ∀ layout, ∃ out,
        mexFunction refPlatform (spmm layout)
            (call [5, 6] [0, 1] [0, 1, 1, 2] [3, 4] 3 2 1 [7, 7, 7] 4) = some out ∧
          ∀ c, c < 1 → (resultOf refPlatform out)[layout.index 3 1 1 c]? = some 0 :=
  ⟨by decide, by decide,
    fun layout => multiply_empty_row_zero refPlatform layout _ [5, 6] [0, 1] [0, 1, 1, 2] [3, 4]
      [7, 7, 7] 3 2 1 4 1 (by unfold IsCall; decide!) (by decide) (by decide) (by decide)
      (by decide)⟩

/-- Claim C8.  Two calls that differ in nothing but the thread count, both
counts at least one (for instance 1 and 4), return and leave the same result
buffer, element for element; and that buffer is also what every run leaves
that writes the cells of all rows in some other order, as a parallel run of
the workers does.  Neither validity of the input nor divisibility of the row
count is needed, and no law of arithmetic is assumed. -/
theorem multiply_thread_count_independent {α : Type} [Zero α] [Add α] [Mul α]
    (P : Platform α) (layout : Layout) (h h' : Host α) (values : List α)
    (columnIndices rowOffsets : List Int) (dense : List α) (sx sy sz : Int) (result : List α)
    (threadCount threadCount' : Int)
    (hcall : IsCall P h values columnIndices rowOffsets dense sx sy sz result threadCount)
    (hcall' : IsCall P h' values columnIndices rowOffsets dense sx sy sz result threadCount')
    (hnt : 1 ≤ threadCount) (hnt' : 1 ≤ threadCount') :
    ∃ out out', mexFunction P (spmm layout) h = some out ∧
      mexFunction P (spmm layout) h' = some out' ∧ resultOf P out = resultOf P out' ∧
      ∀ order : List (Nat × Nat), order.Perm (cells 0 sx.toNat sz.toNat) →
        spmmInOrder layout values columnIndices rowOffsets dense sx.toNat sy.toNat sz.toNat
          order result = resultOf P out := by
  obtain ⟨out, hout, hres⟩ := result_of_isCall P (spmm layout) h _ _ _ _ _ _ _ _ _ hcall
  obtain ⟨out', hout', hres'⟩ := result_of_isCall P (spmm layout) h' _ _ _ _ _ _ _ _ _ hcall'
  refine ⟨out, out', hout, hout', ?_, fun order horder => ?_⟩
  · rw [hres, hres', spmm_eq_rows _ _ _ _ _ _ _ _ _ _ hnt,
      spmm_eq_rows _ _ _ _ _ _ _ _ _ _ hnt']
  · rw [hres]
    exact spmmInOrder_perm layout _ _ _ _ _ _ _ _ _ hnt order horder

/-- Witness for claim C8: a matrix of four rows, run with one and with four
threads. -/
theorem multiply_thread_count_independent_witness :
    WellFormed ([1, 2, 3, 4, 5] : List ℚ) [0, 1, 1, 0, 1] [0, 1, 3, 4, 5] [3, 4]
        [7, 7, 7, 7] 4 2 1 ∧
      ∀ layout, ∃ out out',
        mexFunction refPlatform (spmm layout)
            (call [1, 2, 3, 4, 5] [0, 1, 1, 0, 1] [0, 1, 3, 4, 5] [3, 4] 4 2 1 [7, 7, 7, 7] 1)
          = some out ∧
        mexFunction refPlatform (spmm layout)
            (call [1, 2, 3, 4, 5] [0, 1, 1, 0, 1] [0, 1, 3, 4, 5] [3, 4] 4 2 1 [7, 7, 7, 7] 4)
          = some out' ∧
        resultOf refPlatform out = resultOf refPlatform out' :=
  ⟨by decide, fun layout =>
    have ⟨out, out', ho, ho', he, _⟩ := multiply_thread_count_independent refPlatform layout _ _
      [1, 2, 3, 4, 5] [0, 1, 1, 0, 1] [0, 1, 3, 4, 5] [3, 4] 4 2 1 [7, 7, 7, 7] 1 4
      (by unfold IsCall; decide!) (by unfold IsCall; decide!) (by decide) (by decide)
    ⟨out, out', ho, ho', he⟩⟩

/-- Claim C9.  With `static_cast<int>` as the conversion, each of `sx`, `sy`,
`sz` and `nt` that reaches `spmm` is the first element of its array truncated
toward zero, provided its magnitude is below `2^31`; what follows the first
element (`tx`, `ty`, `tz`, `tn`) does not reach `spmm`.  An integral value is
passed as it is, 2.9 as 2 and -0.5 as 0; nothing is rejected. -/
theorem scalar_args_truncate (P : Platform ℚ) (hP : P.toInt = castInt) (spmm : Kernel ℚ)
    (h : Host ℚ) (a0 a1 a2 a3 a7 : MxArray ℚ) (sx sy sz nt : ℚ) (tx ty tz tn : List ℚ)
    (h0 : h.prhs[0]? = some a0) (h1 : h.prhs[1]? = some a1) (h2 : h.prhs[2]? = some a2)
    (h3 : h.prhs[3]? = some a3) (h4 : h.prhs[4]? = some (.real (sx :: tx)))
    (h5 : h.prhs[5]? = some (.real (sy :: ty))) (h6 : h.prhs[6]? = some (.real (sz :: tz)))
    (h7 : h.prhs[7]? = some a7) (h8 : h.prhs[8]? = some (.real (nt :: tn)))
    (bx : |sx| < 2 ^ 31) (bY : |sy| < 2 ^ 31) (bz : |sz| < 2 ^ 31) (bn : |nt| < 2 ^ 31) :
    mexFunction P spmm h
        = some { h with prhs := h.prhs.set 7 (storeDoubles P a7
            (spmm (doublePtr P a0) (intPtr P a1) (intPtr P a2) (doublePtr P a3)
              (truncToZero sx) (truncToZero sy) (truncToZero sz) (doublePtr P a7)
              (truncToZero nt))) } ∧
      (∀ n : Int, truncToZero (n : ℚ) = n) ∧
      truncToZero (29 / 10) = 2 ∧ truncToZero (-1 / 2) = 0 := by
  refine ⟨?_, truncToZero_intCast, by decide!, by decide!⟩
  rw [mexFunction_forward P spmm h a0 a1 a2 a3 _ _ _ a7 _ sx sy sz nt h0 h1 h2 h3 h4 h5
    h6 h7 h8 (by simp [mxGetPr, doublePtr]) (by simp [mxGetPr, doublePtr])
    (by simp [mxGetPr, doublePtr]) (by simp [mxGetPr, doublePtr]), hP,
    castInt_eq_truncToZero sx (by norm_num at bx ⊢; exact bx),
    castInt_eq_truncToZero sy (by norm_num at bY ⊢; exact bY),
    castInt_eq_truncToZero sz (by norm_num at bz ⊢; exact bz),
    castInt_eq_truncToZero nt (by norm_num at bn ⊢; exact bn)]

/-- Witness for claim C9: the scalars 2.9 (followed by a 5), -0.5, 3 (followed
by 1 and 2) and 4 reach the kernel as 2, 0, 3 and 4. -/
theorem scalar_args_truncate_witness :
    |(29 / 10 : ℚ)| < 2 ^ 31 ∧
      ∀ kernel : Kernel ℚ,
        mexFunction refPlatform kernel
            (hostOf [.real [1, 2], .int32 [0, 1], .int32 [0, 1, 2], .real [3, 4],
              .real [29 / 10, 5], .real [-1 / 2], .real [3, 1, 2], .real [7, 7], .real [4]])
          = some (hostOf [.real [1, 2], .int32 [0, 1], .int32 [0, 1, 2], .real [3, 4],
              .real [29 / 10, 5], .real [-1 / 2], .real [3, 1, 2],
              .real (kernel [1, 2] [0, 1] [0, 1, 2] [3, 4] 2 0 3 [7, 7] 4), .real [4]]) :=
  ⟨by norm_num [abs_lt], fun kernel => by
    have h := (scalar_args_truncate refPlatform rfl kernel
      (hostOf [.real [1, 2], .int32 [0, 1], .int32 [0, 1, 2], .real [3, 4],
        .real [29 / 10, 5], .real [-1 / 2], .real [3, 1, 2], .real [7, 7], .real [4]])
      (.real [1, 2]) (.int32 [0, 1]) (.int32 [0, 1, 2]) (.real [3, 4]) (.real [7, 7])
      (29 / 10) (-1 / 2) 3 4 [5] [] [1, 2] [] rfl rfl rfl rfl rfl rfl rfl rfl rfl
      (by norm_num [abs_lt]) (by norm_num [abs_lt]) (by norm_num [abs_lt])
      (by norm_num [abs_lt])).1
    have e1 : truncToZero (29 / 10) = 2 := by decide!
    have e2 : truncToZero (-1 / 2) = 0 := by decide!
    have e3 : truncToZero 3 = 3 := by decide!
    have e4 : truncToZero 4 = 4 := by decide!
    rw [e1, e2, e3, e4] at h
    exact h⟩

/-- Claim C10.  With the lookups `prhs[i]` and `(mxGetPr(..))[0]` as the only
steps that can fail: an argument list of at least nine entries whose entries
4, 5, 6 and 8 are non-empty double arrays makes every lookup succeed, so `spmm`
is reached; an argument list of fewer than nine entries makes a lookup fail,
whatever the kernel; `nlhs`, `nrhs` and `plhs` have no influence on what
happens; and neither have the entries after the ninth. -/
theorem mexFunction_lookups {α : Type} (P : Platform α) (spmm : Kernel α) (h : Host α) :
    (9 ≤ h.prhs.length →
        (∀ i ∈ [4, 5, 6, 8], ∃ d ds, h.prhs[i]? = some (.real (d :: ds))) →
        (mexFunction P spmm h).isSome) ∧
      (h.prhs.length < 9 → mexFunction P spmm h = none) ∧
      (∀ nlhs nrhs plhs,
        mexFunction P spmm { h with nlhs := nlhs, plhs := plhs, nrhs := nrhs }
          = (mexFunction P spmm h).map
              (fun out => { out with nlhs := nlhs, plhs := plhs, nrhs := nrhs })) ∧
      (∀ extra, 9 ≤ h.prhs.length →
        mexFunction P spmm { h with prhs := h.prhs.take 9 ++ extra }
          = (mexFunction P spmm h).map
              (fun out => { out with prhs := out.prhs.take 9 ++ extra })) := by
  refine ⟨fun hlen hreal => ?_, fun hlt => ?_, fun nlhs nrhs plhs => ?_, fun extra hlen => ?_⟩
  · have key : ∀ i ∈ [4, 5, 6, 8], (intArg P h.prhs i).isSome := by
      intro i hi
      obtain ⟨d, ds, hd⟩ := hreal i hi
      exact (intArg_isSome P h.prhs i).2 ⟨_, d, hd, by simp [mxGetPr, doublePtr]⟩
    exact (mexFunction_isSome P spmm h).2
      ⟨hlen, key 4 (by simp), key 5 (by simp), key 6 (by simp), key 8 (by simp)⟩
  · cases hm : mexFunction P spmm h with
    | none => rfl
    | some out =>
      have := (mexFunction_isSome P spmm h).1 (by simp [hm])
      omega
  · cases hm : mexFunction P spmm h with
    | none =>
      cases hm' : mexFunction P spmm { h with nlhs := nlhs, plhs := plhs, nrhs := nrhs } with
      | none => rfl
      | some out =>
        have h1 := (mexFunction_isSome P spmm _).1 (by simp [hm'] :
          (mexFunction P spmm { h with nlhs := nlhs, plhs := plhs, nrhs := nrhs }).isSome)
        have h2 := (mexFunction_isSome P spmm h).2 h1
        simp [hm] at h2
    | some out =>
      simp only [mexFunction, Option.bind_eq_bind, Option.bind_eq_some, Option.pure_def] at hm
      obtain ⟨a0, h0, a1, h1, a2, h2, a3, h3, sx, h4, sy, h5, sz, h6, a7, h7, nt, h8, hout⟩ := hm
      simp only [Option.some.injEq] at hout
      subst hout
      simp [mexFunction, h0, h1, h2, h3, h4, h5, h6, h7, h8]
  · have lk : ∀ i, i < 9 → (h.prhs.take 9 ++ extra)[i]? = h.prhs[i]? := by
      intro i hi
      rw [List.getElem?_append_left (by rw [List.length_take]; omega), List.getElem?_take_of_lt hi]
    have hset : ∀ a, (h.prhs.take 9 ++ extra).set 7 a = (h.prhs.set 7 a).take 9 ++ extra := by
      intro a
      rw [List.set_append_left _ _ (by rw [List.length_take]; omega), List.set_take]
    cases hm : mexFunction P spmm h with
    | none =>
      cases hm' : mexFunction P spmm { h with prhs := h.prhs.take 9 ++ extra } with
      | none => rfl
      | some out =>
        obtain ⟨-, e4, e5, e6, e8⟩ := (mexFunction_isSome P spmm _).1 (by simp [hm'] :
          (mexFunction P spmm { h with prhs := h.prhs.take 9 ++ extra }).isSome)
        simp only [intArg_congr P h.prhs _ _ (lk _ (by omega : 4 < 9))] at e4
        simp only [intArg_congr P h.prhs _ _ (lk _ (by omega : 5 < 9))] at e5
        simp only [intArg_congr P h.prhs _ _ (lk _ (by omega : 6 < 9))] at e6
        simp only [intArg_congr P h.prhs _ _ (lk _ (by omega : 8 < 9))] at e8
        have h2 := (mexFunction_isSome P spmm h).2 ⟨hlen, e4, e5, e6, e8⟩
        simp [hm] at h2
    | some out =>
      simp only [mexFunction, Option.bind_eq_bind, Option.bind_eq_some, Option.pure_def] at hm
      obtain ⟨a0, h0, a1, h1, a2, h2, a3, h3, sx, h4, sy, h5, sz, h6, a7, h7, nt, h8, hout⟩ := hm
      simp only [Option.some.injEq] at hout
      subst hout
      rw [mexFunction_eq P spmm _ a0 a1 a2 a3 a7 sx sy sz nt
        ((lk 0 (by omega)).trans h0) ((lk 1 (by omega)).trans h1) ((lk 2 (by omega)).trans h2)
        ((lk 3 (by omega)).trans h3)
        ((intArg_congr P h.prhs _ 4 (lk 4 (by omega))).trans h4)
        ((intArg_congr P h.prhs _ 5 (lk 5 (by omega))).trans h5)
        ((intArg_congr P h.prhs _ 6 (lk 6 (by omega))).trans h6)
        ((lk 7 (by omega)).trans h7)
        ((intArg_congr P h.prhs _ 8 (lk 8 (by omega))).trans h8)]
      simp only [Option.map_some', hset]

/-- Witness for claim C10: the end-to-end call succeeds, and the same call cut
after its eighth argument does not. -/
theorem mexFunction_lookups_witness :
    (mexFunction refPlatform (spmm .rowMajor)
        (call [1, 2] [0, 1] [0, 1, 2] [3, 4] 2 2 1 [7, 7] 1)).isSome ∧
      mexFunction refPlatform (spmm .rowMajor)
        (hostOf [.real [1, 2], .int32 [0, 1], .int32 [0, 1, 2], .real [3, 4],
          .real [2], .real [2], .real [1], .real [7, 7]]) = none :=
  ⟨(mexFunction_lookups refPlatform (spmm .rowMajor)
      (call [1, 2] [0, 1] [0, 1, 2] [3, 4] 2 2 1 [7, 7] 1)).1 (by decide)
      (fun i hi => by
        simp only [List.mem_cons, List.mem_singleton, List.not_mem_nil, or_false] at hi
        rcases hi with rfl | rfl | rfl | rfl <;> exact ⟨_, _, rfl⟩),
    (mexFunction_lookups refPlatform (spmm .rowMajor)
      (hostOf [.real [1, 2], .int32 [0, 1], .int32 [0, 1, 2], .real [3, 4],
        .real [2], .real [2], .real [1], .real [7, 7]])).2.1 (by decide)⟩

end SpmmMex
